import Mathlib

/-!
Verification of the `naivedb` storage layer (`naivedb/storage.py`).

The development shallowly embeds the three storage classes of the source:

* `JSONStorage`  — file-backed leaf (`storage.py` lines 62-120), modelled over an
  explicit file-handle state (`FileH`) whose semantics follow Python's `open`
  access modes: `'w'` truncates at open, `'a'` forces every write to append,
  reading requires `'r'` or `'+'`.  The repository's own write-permission guard
  (`any([c in mode for c in ('a', 'w', '+')])`, line 79) is transcribed as
  `canWriteMode`.
* `MemoryStorage` — in-process leaf (lines 123-142), value-semantics model.
* `ItemStorage`   — caching wrapper (lines 145-196), modelled over an arbitrary
  inner storage given as a pair of `read`/`write` state transformers.  Because
  `ItemStorage.__init__` stores the very object returned by `storage.read()`
  (no copy, line 156), a second, heap-based model `MI` of the wrapper over a
  `MemoryStorage` captures Python reference semantics for the aliasing claim.

JSON values are modelled by the nested inductive `JVal`; `render` models the
serialization performed by `json.dumps` with its default options (separators
`", "` and `": "`, `ensure_ascii` escapes), and `parseVal` models `json.loads`.
These two functions belong to the Python standard library, not to the
repository; they are modelled from their documented behaviour with two
simplifications that do not affect any claim: numbers are integers (floats are
out of scope) and the parser is lax where `json.loads` would reject malformed
input the encoder can never produce (lone surrogates, literal control
characters, leading zeros).

Python `dict`s are association lists with first-occurrence lookup; `dset`
updates a present key in place (Python keeps the insertion position) and
appends an absent one, `dpop` models `dict.pop(key, None)`.  Python truthiness
(`if data`) is `pyTruthy`: `None`, `{}`, `[]`, `0`, `""` are all falsy, which
is why `__getitem__` returns `None` rather than raising on an *empty* dict.
-/

namespace NaiveDB

/-- Errors surfaced by the modelled operations.  `ioCannotWrite` is the
`IOError` raised by the guard in `JSONStorage.write`; `unsupportedOperation`
is the error `json.load` hits on a handle opened without read capability;
`typeError` covers item access / item assignment on a non-dict (including
`None`); `attributeError` is `None.get(...)`; `custom n` stands for an
arbitrary error raised by a wrapped backend. -/
inductive Err where
  | ioCannotWrite
  | unsupportedOperation
  | jsonDecode
  | keyError (k : String)
  | typeError
  | attributeError
  | custom (n : Nat)
deriving DecidableEq

/-- First-occurrence lookup in an association list: Python `d[k]` / `d.get(k)`
on a `dict` (a Python dict has at most one occurrence of each key). -/
def dget? {α : Type} : List (String × α) → String → Option α
  | [], _ => none
  | (k', v) :: rest, k => if k' = k then some v else dget? rest k

/-- Python `d[k] = v`: replace the value of a present key in place (the key
keeps its insertion position) or append an absent key at the end. -/
def dset {α : Type} : List (String × α) → String → α → List (String × α)
  | [], k, v => [(k, v)]
  | (k', v') :: rest, k, v =>
      if k' = k then (k', v) :: rest else (k', v') :: dset rest k v

/-- Python `d.pop(k, None)`: remove the first occurrence of the key, if any. -/
def dpop {α : Type} : List (String × α) → String → List (String × α)
  | [], _ => []
  | (k', v') :: rest, k => if k' = k then rest else (k', v') :: dpop rest k

/-- JSON values, as produced by `json.loads`: the data the storages move
around.  Numbers are modelled as integers (floating point is out of scope
for every claim). -/
inductive JVal where
  | null
  | bool (b : Bool)
  | num (n : Int)
  | str (s : String)
  | arr (elems : List JVal)
  | obj (fields : List (String × JVal))

/-- Python truthiness of a JSON value: `None`, `False`, `0`, `""`, `[]` and
`{}` are falsy.  This drives `data[key] if data else None` in
`JSONStorage.__getitem__` (line 114) and `ItemStorage.__getitem__`
(line 172). -/
def pyTruthy : JVal → Bool
  | .null => false
  | .bool b => b
  | .num n => !(n == 0)
  | .str s => !s.data.isEmpty
  | .arr es => !es.isEmpty
  | .obj fs => !fs.isEmpty

/-- Python subscript `data[key]` with a string key: a dict either yields the
value or raises `KeyError`; every other value raises `TypeError`. -/
def JVal.getItem : JVal → String → Except Err JVal
  | .obj fields, k =>
      match dget? fields k with
      | some v => .ok v
      | none => .error (.keyError k)
  | _, _ => .error .typeError

/-- Python item assignment `data[key] = value` with a string key: a dict is
updated in place; every other value (including `None`) raises `TypeError`. -/
def JVal.setItem : JVal → String → JVal → Except Err JVal
  | .obj fields, k, v => .ok (.obj (dset fields k v))
  | _, _, _ => .error .typeError

/-- Lowercase hexadecimal digit, as produced by Python's `'\\u%04x' % n`. -/
def hexDigitChar (n : Nat) : Char :=
  if n < 10 then Char.ofNat (48 + n) else Char.ofNat (87 + n)

/-- Four lowercase hex digits of a code unit below `0x10000`. -/
def hex4 (n : Nat) : List Char :=
  [hexDigitChar (n / 4096 % 16), hexDigitChar (n / 256 % 16),
   hexDigitChar (n / 16 % 16), hexDigitChar (n % 16)]

/-- Escaping performed by `json.dumps` with its default `ensure_ascii=True`:
quote and backslash get a backslash escape, the five control characters of
`ESCAPE_DCT` get their short forms, printable ASCII is kept literal, and
everything else becomes `\uXXXX` (a surrogate pair for code points above
`0xFFFF`). -/
def escapeChar (c : Char) : List Char :=
  if c = '"' then ['\\', '"']
  else if c = '\\' then ['\\', '\\']
  else if c.toNat = 8 then ['\\', 'b']
  else if c.toNat = 9 then ['\\', 't']
  else if c.toNat = 10 then ['\\', 'n']
  else if c.toNat = 12 then ['\\', 'f']
  else if c.toNat = 13 then ['\\', 'r']
  else if 32 ≤ c.toNat && c.toNat ≤ 126 then [c]
  else if c.toNat < 65536 then '\\' :: 'u' :: hex4 c.toNat
  else '\\' :: 'u' :: hex4 (55296 + (c.toNat - 65536) / 1024) ++
       '\\' :: 'u' :: hex4 (56320 + (c.toNat - 65536) % 1024)

/-- Escape every character of a string body. -/
def escapeString : List Char → List Char
  | [] => []
  | c :: cs => escapeChar c ++ escapeString cs

/-- A JSON string literal: quote, escaped body, quote. -/
def renderString (s : String) : List Char :=
  '"' :: escapeString s.data ++ ['"']

/-- Decimal digits of a natural number, most significant first.  The first
argument is fuel bounding the recursion depth; `natChars` supplies enough. -/
def natDigitsAux : Nat → Nat → List Char
  | 0, _ => []
  | fuel + 1, n =>
      if n < 10 then [Char.ofNat (48 + n)]
      else natDigitsAux fuel (n / 10) ++ [Char.ofNat (48 + n % 10)]

/-- Decimal rendering of a natural number. -/
def natChars (n : Nat) : List Char := natDigitsAux (n + 1) n

/-- Decimal rendering of an integer, as `json.dumps` prints Python ints. -/
def intChars : Int → List Char
  | .ofNat n => natChars n
  | .negSucc m => '-' :: natChars (m + 1)

mutual

/-- Serialization of a JSON value, modelling `json.dumps` with its default
options: items joined by `", "`, keys separated from values by `": "`. -/
def render : JVal → List Char
  | .null => 'n' :: 'u' :: ['l', 'l']
  | .bool true => 't' :: 'r' :: ['u', 'e']
  | .bool false => 'f' :: 'a' :: ['l', 's', 'e']
  | .num n => intChars n
  | .str s => renderString s
  | .arr es => '[' :: renderElems es ++ [']']
  | .obj fs => '{' :: renderFields fs ++ ['}']

/-- Body of a serialized JSON array. -/
def renderElems : List JVal → List Char
  | [] => []
  | e :: es => render e ++ renderElemsTail es

/-- Remaining elements of a serialized JSON array, each preceded by `", "`. -/
def renderElemsTail : List JVal → List Char
  | [] => []
  | e :: es => ',' :: ' ' :: render e ++ renderElemsTail es

/-- Body of a serialized JSON object. -/
def renderFields : List (String × JVal) → List Char
  | [] => []
  | (k, v) :: fs => renderString k ++ ':' :: ' ' :: render v ++ renderFieldsTail fs

/-- Remaining members of a serialized JSON object, each preceded by `", "`. -/
def renderFieldsTail : List (String × JVal) → List Char
  | [] => []
  | (k, v) :: fs =>
      ',' :: ' ' :: renderString k ++ ':' :: ' ' :: render v ++ renderFieldsTail fs

end

mutual

/-- Structural size of a JSON value, used as parser fuel. -/
def jsize : JVal → Nat
  | .arr es => 1 + esize es
  | .obj fs => 1 + fsize fs
  | _ => 1

/-- Structural size of a list of JSON values. -/
def esize : List JVal → Nat
  | [] => 1
  | e :: es => jsize e + esize es

/-- Structural size of a list of JSON object members. -/
def fsize : List (String × JVal) → Nat
  | [] => 1
  | (_, v) :: fs => jsize v + fsize fs

end

/-- Keys of an association list are pairwise distinct — automatically true of
every value built from a Python `dict`. -/
def nodupKeys {α : Type} : List (String × α) → Bool
  | [] => true
  | (k, _) :: fs => (dget? fs k).isNone && nodupKeys fs

mutual

/-- Well-formedness of a JSON value as a Python object: every object level
has pairwise distinct keys.  Values produced by `json.loads` or built from
Python dicts always satisfy this. -/
def wfJ : JVal → Bool
  | .null => true
  | .bool _ => true
  | .num _ => true
  | .str _ => true
  | .arr es => wfL es
  | .obj fs => nodupKeys fs && wfF fs

/-- Well-formedness of a list of JSON values. -/
def wfL : List JVal → Bool
  | [] => true
  | e :: es => wfJ e && wfL es

/-- Well-formedness of the values of a list of JSON object members. -/
def wfF : List (String × JVal) → Bool
  | [] => true
  | (_, v) :: fs => wfJ v && wfF fs

end

/-- JSON whitespace, as skipped by `json.loads`. -/
def isWs (c : Char) : Bool := c = ' ' || c = '\t' || c = '\n' || c = '\r'

/-- Drop leading JSON whitespace. -/
def skipWs : List Char → List Char
  | [] => []
  | c :: cs => if isWs c then skipWs cs else c :: cs

/-- ASCII decimal digit test. -/
def isDigitC (c : Char) : Bool := 48 ≤ c.toNat && c.toNat ≤ 57

/-- Value of a decimal digit string, most significant digit first. -/
def digitsToNat (ds : List Char) : Nat :=
  ds.foldl (fun a c => a * 10 + (c.toNat - 48)) 0

/-- Value of a hexadecimal digit character. -/
def hexVal (c : Char) : Option Nat :=
  if 48 ≤ c.toNat && c.toNat ≤ 57 then some (c.toNat - 48)
  else if 97 ≤ c.toNat && c.toNat ≤ 102 then some (c.toNat - 87)
  else if 65 ≤ c.toNat && c.toNat ≤ 70 then some (c.toNat - 55)
  else none

mutual

/-- String-body scanner of the `json.loads` model: consumes characters up to
the closing quote, decoding backslash escapes via `unescape`. -/
def parseStrAux : List Char → List Char → Option (String × List Char)
  | _, [] => none
  | acc, c :: rest =>
      if c = '"' then some (String.mk acc, rest)
      else if c = '\\' then unescape acc rest
      else parseStrAux (acc ++ [c]) rest
termination_by structural _ l => l

/-- Decode the escape following a backslash: the short escapes of JSON, or a
`\uXXXX` code unit handled by `parseU`. -/
def unescape : List Char → List Char → Option (String × List Char)
  | _, [] => none
  | acc, e :: r =>
      if e = '"' then parseStrAux (acc ++ ['"']) r
      else if e = '\\' then parseStrAux (acc ++ ['\\']) r
      else if e = '/' then parseStrAux (acc ++ ['/']) r
      else if e = 'b' then parseStrAux (acc ++ [Char.ofNat 8]) r
      else if e = 'f' then parseStrAux (acc ++ [Char.ofNat 12]) r
      else if e = 'n' then parseStrAux (acc ++ [Char.ofNat 10]) r
      else if e = 'r' then parseStrAux (acc ++ [Char.ofNat 13]) r
      else if e = 't' then parseStrAux (acc ++ [Char.ofNat 9]) r
      else if e = 'u' then parseU acc r
      else none
termination_by structural _ l => l

/-- Decode the four hex digits of a `\uXXXX` escape.  A high surrogate hands
over to `parseUSur` for the matching low surrogate; a lone surrogate makes
the model parser fail (the encoder never produces one). -/
def parseU : List Char → List Char → Option (String × List Char)
  | acc, h1 :: h2 :: h3 :: h4 :: r =>
      match hexVal h1, hexVal h2, hexVal h3, hexVal h4 with
      | some a, some b, some c, some d =>
          let n := a * 4096 + b * 256 + c * 16 + d
          if n < 55296 ∨ 57343 < n then parseStrAux (acc ++ [Char.ofNat n]) r
          else if n ≤ 56319 then parseUSur acc n r
          else none
      | _, _, _, _ => none
  | _, _ => none
termination_by structural _ l => l

/-- Second half of a surrogate pair: expects `\uXXXX` holding a low
surrogate and combines it with the pending high surrogate `n`. -/
def parseUSur : List Char → Nat → List Char → Option (String × List Char)
  | acc, n, c0 :: 'u' :: g1 :: g2 :: g3 :: g4 :: r =>
      if c0 = '\\' then
        match hexVal g1, hexVal g2, hexVal g3, hexVal g4 with
        | some a, some b, some c, some d =>
            let m := a * 4096 + b * 256 + c * 16 + d
            if 56320 ≤ m ∧ m ≤ 57343 then
              parseStrAux (acc ++ [Char.ofNat (65536 + (n - 55296) * 1024 + (m - 56320))]) r
            else none
        | _, _, _, _ => none
      else none
  | _, _, _ => none
termination_by structural _ _ l => l

end

mutual

/-- Recursive-descent JSON value parser, modelling `json.loads`.  The fuel
argument only bounds the nesting of mutual calls; `parseDoc` supplies enough
for any input.  The parser is lax where `json.loads` is strict on inputs the
encoder never produces (leading zeros, literal control characters in strings)
and reads numbers as integers, truncating at a decimal point — floats are out
of scope for every claim. -/
def parseVal : Nat → List Char → Option (JVal × List Char)
  | 0, _ => none
  | fuel + 1, input =>
      match skipWs input with
      | [] => none
      | c :: rest =>
          if c = 'n' then
            match rest with
            | 'u' :: 'l' :: 'l' :: r => some (.null, r)
            | _ => none
          else if c = 't' then
            match rest with
            | 'r' :: 'u' :: 'e' :: r => some (.bool true, r)
            | _ => none
          else if c = 'f' then
            match rest with
            | 'a' :: 'l' :: 's' :: 'e' :: r => some (.bool false, r)
            | _ => none
          else if c = '"' then
            match parseStrAux [] rest with
            | some (s, r) => some (.str s, r)
            | none => none
          else if c = '[' then
            let rest2 := skipWs rest
            if rest2.headD 'x' = ']' then some (.arr [], rest2.tail)
            else parseElems fuel rest2 []
          else if c = '{' then
            let rest2 := skipWs rest
            if rest2.headD 'x' = '}' then some (.obj [], rest2.tail)
            else parseFields fuel rest2 []
          else if c = '-' then
            match rest with
            | d :: _ =>
                if isDigitC d then
                  some (.num (-(digitsToNat (rest.takeWhile isDigitC) : Int)),
                        rest.dropWhile isDigitC)
                else none
            | [] => none
          else if isDigitC c then
            some (.num (digitsToNat ((c :: rest).takeWhile isDigitC) : Int),
                  (c :: rest).dropWhile isDigitC)
          else none
termination_by structural n _ => n

/-- Non-empty JSON array body: elements separated by commas, closed by a
bracket. -/
def parseElems : Nat → List Char → List JVal → Option (JVal × List Char)
  | 0, _, _ => none
  | fuel + 1, input, acc =>
      match parseVal fuel input with
      | some (v, r) =>
          let r2 := skipWs r
          if r2.headD 'x' = ',' then parseElems fuel r2.tail (acc ++ [v])
          else if r2.headD 'x' = ']' then some (.arr (acc ++ [v]), r2.tail)
          else none
      | none => none
termination_by structural n _ _ => n

/-- Non-empty JSON object body: `"key": value` members separated by commas,
closed by a brace.  A duplicate key overwrites the earlier value in place,
exactly as repeated Python dict assignment does in `json.loads`. -/
def parseFields : Nat → List Char → List (String × JVal) → Option (JVal × List Char)
  | 0, _, _ => none
  | fuel + 1, input, acc =>
      match skipWs input with
      | '"' :: rest =>
          match parseStrAux [] rest with
          | some (k, r) =>
              let r2 := skipWs r
              if r2.headD 'x' = ':' then
                match parseVal fuel r2.tail with
                | some (v, r3) =>
                    let r4 := skipWs r3
                    if r4.headD 'x' = ',' then parseFields fuel r4.tail (dset acc k v)
                    else if r4.headD 'x' = '}' then some (.obj (dset acc k v), r4.tail)
                    else none
                | none => none
              else none
          | none => none
      | _ => none
termination_by structural n _ _ => n

end

/-- Whole-document parse, modelling `json.load(fp)`: one JSON value spanning
the entire content, with only trailing whitespace allowed (`json.loads`
raises "Extra data" otherwise). -/
def parseDoc (content : List Char) : Option JVal :=
  match parseVal (content.length + 1) content with
  | some (v, rest) => if skipWs rest = [] then some v else none
  | none => none

/-- The write-permission guard computed in `JSONStorage.__init__` (line 79):
`any([c in mode for c in ('a', 'w', '+')])`. -/
def canWriteMode (mode : String) : Bool :=
  mode.data.contains 'a' || mode.data.contains 'w' || mode.data.contains '+'

/-- Whether a Python file object opened with this mode supports reading:
`'r'` or any `'+'` mode.  `json.load` on a non-readable handle raises
`io.UnsupportedOperation`. -/
def readableMode (mode : String) : Bool :=
  mode.data.contains 'r' || mode.data.contains '+'

/-- Whether the mode is an append mode: every write then goes to the end of
the file regardless of the seek position. -/
def appendMode (mode : String) : Bool := mode.data.contains 'a'

/-- Whether `open` truncates the file at construction (`'w'` modes). -/
def truncOnOpen (mode : String) : Bool := mode.data.contains 'w'

/-- State of the open file handle held by a `JSONStorage`: the access mode it
was opened with, the file content, and the current seek position. -/
structure FileH where
  mode : String
  content : List Char
  pos : Nat
deriving DecidableEq

/-- Model of `open(path, mode)` on a file currently holding `initial`:
`'w'` modes truncate the file immediately. -/
def openFile (initial : List Char) (mode : String) : FileH :=
  { mode := mode, content := if truncOnOpen mode then [] else initial, pos := 0 }

/-- Model of `file.seek(0)`. -/
def FileH.seekStart (f : FileH) : FileH := { f with pos := 0 }

/-- Model of `file.seek(0, os.SEEK_END)`; `file.tell()` is then
`f.content.length`. -/
def FileH.seekEnd (f : FileH) : FileH := { f with pos := f.content.length }

/-- Model of `file.write(s)`: overwrite at the current position — except in
append mode, where POSIX `O_APPEND` forces the write to the end of the file
regardless of any preceding seek. -/
def FileH.writeChars (f : FileH) (s : List Char) : FileH :=
  if appendMode f.mode then
    { f with content := f.content ++ s, pos := f.content.length + s.length }
  else
    { f with content := f.content.take f.pos ++ s ++ f.content.drop (f.pos + s.length),
             pos := f.pos + s.length }

/-- Model of `file.truncate()` with no argument: cut the file at the current
position. -/
def FileH.truncHere (f : FileH) : FileH := { f with content := f.content.take f.pos }

/-- File-handle effects emitted by `JSONStorage.write`, in invocation order;
`flush` and `fsync` are the durability points between the data write and the
final truncation. -/
inductive FileOp where
  | seekStart
  | writeChars (s : List Char)
  | flush
  | fsync
  | truncate
deriving DecidableEq

namespace JSONStorage

/-- `JSONStorage.read` (lines 85-94): seek to the end to measure the file;
an empty file yields `None` before any actual read happens, so this path
works even on write-only handles.  Otherwise seek back to the start and let
`json.load` parse the entire content (raising on a non-readable handle or on
malformed JSON). -/
def read (f : FileH) : Except Err (Option JVal) × FileH :=
  if f.content.length = 0 then (.ok none, f.seekEnd)
  else if readableMode f.mode = false then (.error .unsupportedOperation, f.seekStart)
  else
    match parseDoc f.content with
    | some v => (.ok (some v), f.seekEnd)
    | none => (.error .jsonDecode, f.seekEnd)

/-- `JSONStorage.write` (lines 96-109): raise `IOError` before any file
operation when the access mode grants no write capability; otherwise seek to
the start, write the serialized snapshot, flush, fsync, and finally truncate
at the current position.  The third component lists the file operations
actually invoked, in order. -/
def write (f : FileH) (data : JVal) : Except Err Unit × FileH × List FileOp :=
  if canWriteMode f.mode = false then (.error .ioCannotWrite, f, [])
  else
    let ser := render data
    let f1 := (f.seekStart).writeChars ser
    (.ok (), f1.truncHere, [.seekStart, .writeChars ser, .flush, .fsync, .truncate])

/-- `JSONStorage.__getitem__` (lines 111-114): `data[key] if data else None`
after a full `read` — so `None` *and* every other falsy snapshot (notably the
empty dict) yield `None`, while a truthy snapshot is subscripted and may
raise `KeyError`. -/
def getItem (f : FileH) (key : String) : Except Err (Option JVal) × FileH :=
  match read f with
  | (.ok none, f2) => (.ok none, f2)
  | (.ok (some data), f2) =>
      if pyTruthy data then
        match data.getItem key with
        | .ok v => (.ok (some v), f2)
        | .error e => (.error e, f2)
      else (.ok none, f2)
  | (.error e, f2) => (.error e, f2)

/-- `JSONStorage.__setitem__` (lines 116-120): read the whole file, mutate
one key of the parsed dict (`data[key] = value` raises `TypeError` when
`read` returned `None`), and rewrite everything.  The third component lists
the file operations invoked by the embedded `write`. -/
def setItem (f : FileH) (key : String) (value : JVal) :
    Except Err Unit × FileH × List FileOp :=
  match read f with
  | (.ok none, f2) => (.error .typeError, f2, [])
  | (.ok (some data), f2) =>
      match data.setItem key value with
      | .ok data2 => write f2 data2
      | .error e => (.error e, f2, [])
  | (.error e, f2) => (.error e, f2, [])

end JSONStorage

namespace MemoryStorage

/-- `MemoryStorage.read` (lines 132-133): return `self._data`, initially
`None`. -/
def read (s : Option JVal) : Except Err (Option JVal) × Option JVal := (.ok s, s)

/-- `MemoryStorage.write` (lines 135-136): rebind `self._data`. -/
def write (_s : Option JVal) (data : JVal) : Except Err Unit × Option JVal :=
  (.ok (), some data)

/-- `MemoryStorage.__getitem__` (lines 138-139): plain subscript, no guard —
`TypeError` on `None`, `KeyError` on a missing key. -/
def getItem (s : Option JVal) (key : String) : Except Err JVal :=
  match s with
  | none => .error .typeError
  | some d => d.getItem key

/-- `MemoryStorage.__setitem__` (lines 141-142): in-place single-key update,
`TypeError` on `None`. -/
def setItem (s : Option JVal) (key : String) (value : JVal) :
    Except Err Unit × Option JVal :=
  match s with
  | none => (.error .typeError, s)
  | some d =>
      match d.setItem key value with
      | .ok d2 => (.ok (), some d2)
      | .error e => (.error e, s)

end MemoryStorage

/-- A wrapped backend as `ItemStorage` sees it: `read` and `write` as state
transformers over an arbitrary state type.  Instantiations model a memory
backend, or backends whose `write` raises. -/
structure StorageOps (σ : Type) where
  read : σ → Except Err (Option JVal) × σ
  write : σ → JVal → Except Err Unit × σ

/-- A `MemoryStorage` as a wrappable backend. -/
def memOps : StorageOps (Option JVal) := ⟨MemoryStorage.read, MemoryStorage.write⟩

/-- A backend whose `write` always raises (`Err.custom 0`), as used to
exercise the rollback path. -/
def failOps : StorageOps Unit :=
  ⟨fun s => (.ok none, s), fun s _ => (.error (.custom 0), s)⟩

/-- A failing backend that additionally counts how many times its `write`
was invoked, to observe whether a write was ever attempted. -/
def countFailOps : StorageOps Nat :=
  ⟨fun s => (.ok none, s), fun s _ => (.error (.custom 0), s + 1)⟩

/-- State of an `ItemStorage`: the wrapped backend's state and the cache
`self._data` (value semantics; the heap model `MI` below covers reference
semantics). -/
structure ItemState (σ : Type) where
  inner : σ
  cache : Option JVal

namespace ItemStorage

/-- `ItemStorage.__init__` (lines 151-156): one backend `read`, retained as
the cache. -/
def init {σ : Type} (ops : StorageOps σ) (s : σ) : Except Err (ItemState σ) :=
  match ops.read s with
  | (.ok d, s2) => .ok ⟨s2, d⟩
  | (.error e, _) => .error e

/-- `ItemStorage.read` (lines 158-162): the cache, never the backend. -/
def read {σ : Type} (st : ItemState σ) : Except Err (Option JVal) × ItemState σ :=
  (.ok st.cache, st)

/-- `ItemStorage.write` (lines 164-169): write through to the backend first;
rebind the cache only after the backend write returned. -/
def write {σ : Type} (ops : StorageOps σ) (st : ItemState σ) (data : JVal) :
    Except Err Unit × ItemState σ :=
  match ops.write st.inner data with
  | (.ok _, s2) => (.ok (), ⟨s2, some data⟩)
  | (.error e, s2) => (.error e, ⟨s2, st.cache⟩)

/-- `ItemStorage.__getitem__` (lines 171-172): `self._data[key] if self._data
else None` — same falsy-snapshot behaviour as the file leaf. -/
def getItem {σ : Type} (st : ItemState σ) (key : String) : Except Err (Option JVal) :=
  match st.cache with
  | none => .ok none
  | some d =>
      if pyTruthy d then
        match d.getItem key with
        | .ok v => .ok (some v)
        | .error e => .error e
      else .ok none

/-- `ItemStorage.__setitem__` (lines 174-196): record the key's previous
value (`self._data.get(key, old_none)` — an `AttributeError` when the cache
is `None` or any other non-dict, since only dicts have `.get`), mutate the
cache, try the backend write, and on failure remove the key again
(`dict.pop`) or restore the recorded value before re-raising. -/
def setItem {σ : Type} (ops : StorageOps σ) (st : ItemState σ) (key : String)
    (value : JVal) : Except Err Unit × ItemState σ :=
  match st.cache with
  | some (.obj fields) =>
      let oldValue := dget? fields key
      let fields1 := dset fields key value
      match ops.write st.inner (.obj fields1) with
      | (.ok _, s2) => (.ok (), ⟨s2, some (.obj fields1)⟩)
      | (.error e, s2) =>
          match oldValue with
          | none => (.error e, ⟨s2, some (.obj (dpop fields1 key))⟩)
          | some w => (.error e, ⟨s2, some (.obj (dset fields1 key w))⟩)
  | _ => (.error .attributeError, st)

end ItemStorage

/-- Composite state of an `ItemStorage` wrapped around a `MemoryStorage`,
with Python reference semantics made explicit: `heap` holds the allocated
dict objects, `memData` is the backend's `self._data` reference and `cache`
the wrapper's `self._data` reference. -/
structure MIState where
  heap : List JVal
  memData : Option Nat
  cache : Option Nat

/-- Dereference a heap address. -/
def heapAt (h : List JVal) (a : Nat) : JVal := h.getD a .null

namespace MI

/-- `ItemStorage(MemoryStorage(...))`: the constructor stores the very
reference returned by `storage.read()` (line 156) — no copy is taken. -/
def init (heap : List JVal) (memData : Option Nat) : MIState :=
  ⟨heap, memData, memData⟩

/-- `MemoryStorage.write` called directly on the wrapped backend with a
fresh snapshot object: allocates the object and rebinds `self._data` to it.
The wrapper's cache keeps pointing at the old object. -/
def memWrite (st : MIState) (v : JVal) : MIState :=
  { heap := st.heap ++ [v], memData := some st.heap.length, cache := st.cache }

/-- `MemoryStorage.__setitem__` called directly on the wrapped backend:
mutates the referenced snapshot object in place. -/
def memSetItem (st : MIState) (key : String) (value : JVal) :
    Except Err Unit × MIState :=
  match st.memData with
  | none => (.error .typeError, st)
  | some a =>
      match (heapAt st.heap a).setItem key value with
      | .ok d2 => (.ok (), { st with heap := st.heap.set a d2 })
      | .error e => (.error e, st)

/-- The snapshot value observed through the wrapper's `read` (the value the
cache reference currently points at). -/
def wrapperRead (st : MIState) : Option JVal := st.cache.map (heapAt st.heap)

end MI

/-- What may legally follow a serialized value: end of input, or one of the
separators the encoder emits (so number parsing stops at the right place). -/
def stopper (rest : List Char) : Prop :=
  rest = [] ∨ ∃ c cs, rest = c :: cs ∧ (c = ',' ∨ c = ']' ∨ c = '}')

/-- Shape of a valid snapshot: a JSON object whose values are objects. -/
def isSnapshot : JVal → Bool
  | .obj fs => fs.all fun p => match p.2 with | .obj _ => true | _ => false
  | _ => false

theorem dget?_dset_self {α : Type} (d : List (String × α)) (k : String) (v : α) :
    dget? (dset d k v) k = some v := by
  induction d with
  | nil => simp [dget?, dset]
  | cons hd tl ih =>
      obtain ⟨k', v'⟩ := hd
      by_cases h : k' = k <;> simp [dget?, dset, h, ih]

theorem dget?_dset_ne {α : Type} (d : List (String × α)) (k k' : String) (v : α)
    (hne : k ≠ k') : dget? (dset d k v) k' = dget? d k' := by
  induction d with
  | nil => simp [dget?, dset, hne]
  | cons hd tl ih =>
      obtain ⟨k0, v0⟩ := hd
      by_cases h : k0 = k
      · subst h
        simp [dget?, dset, hne]
      · simp only [dset, if_neg h]
        by_cases h' : k0 = k' <;> simp [dget?, h', ih]

/-- Restoring a previously present value undoes an update exactly
(`storage.py` line 195 restores `self._data[key] = old_value`). -/
theorem dset_dset_restore {α : Type} (d : List (String × α)) (k : String)
    (v w : α) (h : dget? d k = some w) : dset (dset d k v) k w = d := by
  induction d with
  | nil => simp [dget?] at h
  | cons hd tl ih =>
      obtain ⟨k', v'⟩ := hd
      by_cases hk : k' = k
      · simp only [dget?, if_pos hk] at h
        injection h with h2
        simp [dset, hk, h2]
      · simp only [dget?, if_neg hk] at h
        simp [dset, hk, ih h]

/-- Popping a freshly added key undoes the addition exactly
(`storage.py` line 193 runs `self._data.pop(key, None)`). -/
theorem dpop_dset_fresh {α : Type} (d : List (String × α)) (k : String) (v : α)
    (h : dget? d k = none) : dpop (dset d k v) k = d := by
  induction d with
  | nil => simp [dset, dpop]
  | cons hd tl ih =>
      obtain ⟨k', v'⟩ := hd
      by_cases hk : k' = k
      · simp [dget?, if_pos hk] at h
      · simp only [dget?, if_neg hk] at h
        simp [dset, dpop, hk, ih h]

theorem char_valid_nat (c : Char) :
    c.toNat < 55296 ∨ (57343 < c.toNat ∧ c.toNat < 1114112) := by
  rcases c.valid with h | ⟨h1, h2⟩
  · exact Or.inl h
  · exact Or.inr ⟨h1, h2⟩

theorem hexVal_hexDigitChar : ∀ n, n < 16 → hexVal (hexDigitChar n) = some n := by
  decide

theorem parseU_hex4 (acc : List Char) (n : Nat) (h : n < 65536) (tail : List Char) :
    parseU acc (hex4 n ++ tail) =
      if n < 55296 ∨ 57343 < n then parseStrAux (acc ++ [Char.ofNat n]) tail
      else if n ≤ 56319 then parseUSur acc n tail
      else none := by
  have e1 := hexVal_hexDigitChar (n / 4096 % 16) (Nat.mod_lt _ (by norm_num))
  have e2 := hexVal_hexDigitChar (n / 256 % 16) (Nat.mod_lt _ (by norm_num))
  have e3 := hexVal_hexDigitChar (n / 16 % 16) (Nat.mod_lt _ (by norm_num))
  have e4 := hexVal_hexDigitChar (n % 16) (Nat.mod_lt _ (by norm_num))
  have hsum : n / 4096 % 16 * 4096 + n / 256 % 16 * 256 + n / 16 % 16 * 16 + n % 16 = n := by
    omega
  simp only [hex4, List.cons_append, List.nil_append, parseU, e1, e2, e3, e4, hsum]

theorem parseUSur_hex4 (acc : List Char) (n m : Nat) (h : m < 65536) (tail : List Char) :
    parseUSur acc n ('\\' :: 'u' :: (hex4 m ++ tail)) =
      if 56320 ≤ m ∧ m ≤ 57343 then
        parseStrAux (acc ++ [Char.ofNat (65536 + (n - 55296) * 1024 + (m - 56320))]) tail
      else none := by
  have e1 := hexVal_hexDigitChar (m / 4096 % 16) (Nat.mod_lt _ (by norm_num))
  have e2 := hexVal_hexDigitChar (m / 256 % 16) (Nat.mod_lt _ (by norm_num))
  have e3 := hexVal_hexDigitChar (m / 16 % 16) (Nat.mod_lt _ (by norm_num))
  have e4 := hexVal_hexDigitChar (m % 16) (Nat.mod_lt _ (by norm_num))
  have hsum : m / 4096 % 16 * 4096 + m / 256 % 16 * 256 + m / 16 % 16 * 16 + m % 16 = m := by
    omega
  simp only [hex4, List.cons_append, List.nil_append, parseUSur, e1, e2, e3, e4, hsum]
  simp

/-- Parsing undoes the escaping of a single character, whatever follows. -/
theorem parseStrAux_escapeChar (acc : List Char) (c : Char) (tail : List Char) :
    parseStrAux acc (escapeChar c ++ tail) = parseStrAux (acc ++ [c]) tail := by
  unfold escapeChar
  split_ifs with h1 h2 h3 h4 h5 h6 h7 h8 h9
  · subst h1
    simp [parseStrAux, unescape]
  · subst h2
    simp [parseStrAux, unescape]
  · have hc : Char.ofNat 8 = c := by rw [← h3, Char.ofNat_toNat]
    simp [parseStrAux, unescape]
    rw [hc]
  · have hc : Char.ofNat 9 = c := by rw [← h4, Char.ofNat_toNat]
    simp [parseStrAux, unescape]
    rw [hc]
  · have hc : Char.ofNat 10 = c := by rw [← h5, Char.ofNat_toNat]
    simp [parseStrAux, unescape]
    rw [hc]
  · have hc : Char.ofNat 12 = c := by rw [← h6, Char.ofNat_toNat]
    simp [parseStrAux, unescape]
    rw [hc]
  · have hc : Char.ofNat 13 = c := by rw [← h7, Char.ofNat_toNat]
    simp [parseStrAux, unescape]
    rw [hc]
  · simp only [List.cons_append, List.nil_append]
    rw [parseStrAux]
    simp only [if_neg h1, if_neg h2]
  · have hstep : parseStrAux acc (('\\' :: 'u' :: hex4 c.toNat) ++ tail) =
        parseU acc (hex4 c.toNat ++ tail) := by
      simp only [List.cons_append]
      simp [parseStrAux, unescape]
    rw [hstep, parseU_hex4 acc c.toNat h9 tail]
    have hv : c.toNat < 55296 ∨ 57343 < c.toNat := by
      rcases char_valid_nat c with h | ⟨ha, _⟩
      · exact Or.inl h
      · exact Or.inr ha
    rw [if_pos hv, Char.ofNat_toNat]
  · have hN : 65536 ≤ c.toNat ∧ c.toNat < 1114112 := by
      rcases char_valid_nat c with h | ⟨_, hb⟩
      · omega
      · omega
    have hstep : ∀ a b : Nat, parseStrAux acc
        (('\\' :: 'u' :: hex4 a ++ '\\' :: 'u' :: hex4 b) ++ tail) =
        parseU acc (hex4 a ++ ('\\' :: 'u' :: (hex4 b ++ tail))) := by
      intro a b
      simp only [List.cons_append, List.append_assoc]
      simp [parseStrAux, unescape]
    rw [hstep]
    have hhi : 55296 + (c.toNat - 65536) / 1024 < 65536 := by omega
    rw [parseU_hex4 acc _ hhi]
    rw [if_neg (by omega)]
    rw [if_pos (by omega)]
    rw [parseUSur_hex4 acc _ _ (by omega) tail]
    rw [if_pos (by constructor <;> omega)]
    have hc : 65536 + (55296 + (c.toNat - 65536) / 1024 - 55296) * 1024 +
        (56320 + (c.toNat - 65536) % 1024 - 56320) = c.toNat := by omega
    rw [hc, Char.ofNat_toNat]

/-- Parsing undoes the escaping of a whole string body up to the closing
quote. -/
theorem parseStrAux_escape (cs : List Char) : ∀ acc rest,
    parseStrAux acc (escapeString cs ++ '"' :: rest) =
      some (String.mk (acc ++ cs), rest) := by
  induction cs with
  | nil =>
      intro acc rest
      show parseStrAux acc ('"' :: rest) = _
      rw [parseStrAux]
      simp
  | cons c cs ih =>
      intro acc rest
      rw [escapeString, List.append_assoc, parseStrAux_escapeChar, ih]
      simp

theorem digitsToNat_append (xs : List Char) (c : Char) :
    digitsToNat (xs ++ [c]) = digitsToNat xs * 10 + (c.toNat - 48) := by
  simp [digitsToNat, List.foldl_append]

theorem char48_spec (m : Nat) (h : m < 10) :
    (Char.ofNat (48 + m)).toNat = 48 + m ∧ isDigitC (Char.ofNat (48 + m)) = true := by
  interval_cases m <;> exact ⟨by decide, by decide⟩

theorem natDigitsAux_spec :
    ∀ fuel n, n < fuel →
      natDigitsAux fuel n ≠ [] ∧ (∀ c ∈ natDigitsAux fuel n, isDigitC c = true) ∧
        digitsToNat (natDigitsAux fuel n) = n := by
  intro fuel
  induction fuel with
  | zero => intro n h; omega
  | succ fuel ih =>
      intro n h
      by_cases h10 : n < 10
      · rw [natDigitsAux, if_pos h10]
        obtain ⟨ht, hd⟩ := char48_spec n h10
        refine ⟨by simp, ?_, ?_⟩
        · intro c hc
          simp at hc
          rw [hc]
          exact hd
        · simp [digitsToNat, ht]
      · rw [natDigitsAux, if_neg h10]
        have hrec : n / 10 < fuel := by omega
        obtain ⟨ht, hd⟩ := char48_spec (n % 10) (Nat.mod_lt _ (by norm_num))
        obtain ⟨ih1, ih2, ih3⟩ := ih (n / 10) hrec
        refine ⟨by simp, ?_, ?_⟩
        · intro c hc
          simp at hc
          rcases hc with hc | hc
          · exact ih2 c hc
          · rw [hc]; exact hd
        · rw [digitsToNat_append, ih3, ht]
          omega

theorem natChars_spec (n : Nat) :
    natChars n ≠ [] ∧ (∀ c ∈ natChars n, isDigitC c = true) ∧
      digitsToNat (natChars n) = n :=
  natDigitsAux_spec (n + 1) n (Nat.lt_succ_self n)

theorem takeWhile_all_append (p : Char → Bool) :
    ∀ xs ys, (∀ c ∈ xs, p c = true) →
      (ys = [] ∨ ∃ c cs, ys = c :: cs ∧ p c = false) →
      (xs ++ ys).takeWhile p = xs ∧ (xs ++ ys).dropWhile p = ys := by
  intro xs
  induction xs with
  | nil =>
      intro ys _ hy
      rcases hy with rfl | ⟨c, cs, rfl, hc⟩
      · simp
      · simp [List.takeWhile, List.dropWhile, hc]
  | cons x xs ih =>
      intro ys hx hy
      have hpx : p x = true := hx x (by simp)
      obtain ⟨h1, h2⟩ := ih ys (fun c hc => hx c (by simp [hc])) hy
      simp [List.takeWhile, List.dropWhile, hpx, h1, h2]

theorem string_mk_data (s : String) : String.mk s.data = s := rfl

theorem skipWs_cons_not {c : Char} (h : isWs c = false) (cs : List Char) :
    skipWs (c :: cs) = c :: cs := by
  simp [skipWs, h]

theorem skipWs_cons_ws {c : Char} (h : isWs c = true) (cs : List Char) :
    skipWs (c :: cs) = skipWs cs := by
  simp [skipWs, h]

theorem parseVal_ws_cons (fuel : Nat) {c : Char} (h : isWs c = true) (xs : List Char) :
    parseVal fuel (c :: xs) = parseVal fuel xs := by
  cases fuel with
  | zero => rfl
  | succ fuel => rw [parseVal, parseVal, skipWs_cons_ws h]

theorem parseElems_ws_cons (fuel : Nat) {c : Char} (h : isWs c = true)
    (xs : List Char) (acc : List JVal) :
    parseElems fuel (c :: xs) acc = parseElems fuel xs acc := by
  cases fuel with
  | zero => rfl
  | succ fuel => rw [parseElems, parseElems, parseVal_ws_cons fuel h]

theorem parseFields_ws_cons (fuel : Nat) {c : Char} (h : isWs c = true)
    (xs : List Char) (acc : List (String × JVal)) :
    parseFields fuel (c :: xs) acc = parseFields fuel xs acc := by
  cases fuel with
  | zero => rfl
  | succ fuel => rw [parseFields, parseFields, skipWs_cons_ws h]

theorem ne_of_digit {c : Char} (h : isDigitC c = true) {d : Char}
    (hd : isDigitC d = false) : c ≠ d := by
  intro he
  rw [he, hd] at h
  exact Bool.noConfusion h

theorem ws_false_of_digit {c : Char} (h : isDigitC c = true) : isWs c = false := by
  by_contra hw
  rw [Bool.not_eq_false] at hw
  simp only [isWs, Bool.or_eq_true, decide_eq_true_eq] at hw
  rcases hw with ((rfl | rfl) | rfl) | rfl <;> exact Bool.noConfusion h

theorem stopper_head_not_digit {rest : List Char} (h : stopper rest) :
    rest = [] ∨ ∃ c cs, rest = c :: cs ∧ isDigitC c = false := by
  rcases h with rfl | ⟨c, cs, rfl, hc | hc | hc⟩
  · exact Or.inl rfl
  all_goals subst hc
  · exact Or.inr ⟨_, _, rfl, by decide⟩
  · exact Or.inr ⟨_, _, rfl, by decide⟩
  · exact Or.inr ⟨_, _, rfl, by decide⟩

theorem dget?_append {α : Type} (xs ys : List (String × α)) (k : String) :
    dget? (xs ++ ys) k =
      match dget? xs k with
      | some v => some v
      | none => dget? ys k := by
  induction xs with
  | nil => simp [dget?]
  | cons hd tl ih =>
      obtain ⟨k', v'⟩ := hd
      by_cases h : k' = k <;> simp [dget?, h, ih]

theorem dget?_eq_none_iff {α : Type} (d : List (String × α)) (k : String) :
    dget? d k = none ↔ ∀ p ∈ d, p.1 ≠ k := by
  induction d with
  | nil => simp [dget?]
  | cons hd tl ih =>
      obtain ⟨k', v'⟩ := hd
      by_cases h : k' = k <;> simp [dget?, h, ih]

theorem dset_append_fresh {α : Type} (d : List (String × α)) (k : String) (v : α)
    (h : dget? d k = none) : dset d k v = d ++ [(k, v)] := by
  induction d with
  | nil => simp [dset]
  | cons hd tl ih =>
      obtain ⟨k', v'⟩ := hd
      by_cases hk : k' = k
      · simp [dget?, if_pos hk] at h
      · simp only [dget?, if_neg hk] at h
        simp [dset, hk, ih h]

theorem jsize_pos (v : JVal) : 1 ≤ jsize v := by
  cases v <;> simp [jsize]

theorem esize_pos (es : List JVal) : 1 ≤ esize es := by
  cases es with
  | nil => simp [esize]
  | cons e es => have := jsize_pos e; simp [esize]; omega

theorem fsize_pos (fs : List (String × JVal)) : 1 ≤ fsize fs := by
  cases fs with
  | nil => simp [fsize]
  | cons p fs =>
      obtain ⟨k, v⟩ := p
      have := jsize_pos v
      simp [fsize]
      omega

theorem natChars_head (n : Nat) :
    ∃ d ds, natChars n = d :: ds ∧ isDigitC d = true := by
  obtain ⟨hne, hdig, _⟩ := natChars_spec n
  cases h : natChars n with
  | nil => exact absurd h hne
  | cons d ds => exact ⟨d, ds, rfl, hdig d (by rw [h]; simp)⟩

/-- The first character of any serialized value is not whitespace and not a
closing bracket, so the whitespace skipping and the empty-container lookahead
in the parser leave it in place. -/
theorem render_head (v : JVal) :
    ∃ c cs, render v = c :: cs ∧ isWs c = false ∧ c ≠ ']' ∧ c ≠ '}' := by
  cases v with
  | num n =>
      cases n with
      | ofNat m =>
          obtain ⟨d, ds, hcons, hd⟩ := natChars_head m
          refine ⟨d, ds, ?_, ws_false_of_digit hd, ne_of_digit hd (by decide),
            ne_of_digit hd (by decide)⟩
          simp [render, intChars, hcons]
      | negSucc m => refine ⟨'-', _, rfl, ?_, ?_, ?_⟩ <;> decide
  | null => refine ⟨'n', _, rfl, ?_, ?_, ?_⟩ <;> decide
  | bool b =>
      cases b with
      | false => refine ⟨'f', _, rfl, ?_, ?_, ?_⟩ <;> decide
      | true => refine ⟨'t', _, rfl, ?_, ?_, ?_⟩ <;> decide
  | str s => refine ⟨'"', _, rfl, ?_, ?_, ?_⟩ <;> decide
  | arr es => refine ⟨'[', _, rfl, ?_, ?_, ?_⟩ <;> decide
  | obj fs => refine ⟨'{', _, rfl, ?_, ?_, ?_⟩ <;> decide

theorem skipWs_render (v : JVal) (rest : List Char) :
    skipWs (render v ++ rest) = render v ++ rest := by
  obtain ⟨c, cs, hcons, hws, _, _⟩ := render_head v
  rw [hcons, List.cons_append, skipWs_cons_not hws]

theorem headD_render (v : JVal) (rest : List Char) :
    ((render v ++ rest).headD 'x' = ']') = False ∧
      ((render v ++ rest).headD 'x' = '}') = False := by
  obtain ⟨c, cs, hcons, _, hr, hb⟩ := render_head v
  rw [hcons]
  simp [hr, hb]

theorem parseVal_digits (fuel : Nat) {d : Char} (hd : isDigitC d = true)
    (xs : List Char) :
    parseVal (fuel + 1) (d :: xs) =
      some (.num (digitsToNat ((d :: xs).takeWhile isDigitC) : Int),
        (d :: xs).dropWhile isDigitC) := by
  have e1 : (d = 'n') = False := eq_false (ne_of_digit hd (by decide))
  have e2 : (d = 't') = False := eq_false (ne_of_digit hd (by decide))
  have e3 : (d = 'f') = False := eq_false (ne_of_digit hd (by decide))
  have e4 : (d = '"') = False := eq_false (ne_of_digit hd (by decide))
  have e5 : (d = '[') = False := eq_false (ne_of_digit hd (by decide))
  have e6 : (d = '{') = False := eq_false (ne_of_digit hd (by decide))
  have e7 : (d = '-') = False := eq_false (ne_of_digit hd (by decide))
  simp only [parseVal, skipWs_cons_not (ws_false_of_digit hd), e1, e2, e3, e4, e5, e6, e7,
    if_false, hd, if_true]

theorem parseVal_neg_digits (fuel : Nat) {d : Char} (hd : isDigitC d = true)
    (xs : List Char) :
    parseVal (fuel + 1) ('-' :: d :: xs) =
      some (.num (-(digitsToNat ((d :: xs).takeWhile isDigitC) : Int)),
        (d :: xs).dropWhile isDigitC) := by
  rw [parseVal, skipWs_cons_not (by decide)]
  simp only [List.takeWhile, List.dropWhile, hd]
  simp [hd]

mutual

/-- Round trip of the `json` model: parsing a serialized well-formed value
consumes exactly its rendering, whatever separator follows. -/
theorem parseVal_render : ∀ (v : JVal) (fuel : Nat) (rest : List Char),
    wfJ v = true → jsize v ≤ fuel → stopper rest →
    parseVal fuel (render v ++ rest) = some (v, rest)
  | v, 0, rest => by
      intro _ hsz _
      have := jsize_pos v
      omega
  | .null, fuel + 1, rest => by
      intro _ _ _
      simp [render, parseVal, skipWs, isWs]
  | .bool true, fuel + 1, rest => by
      intro _ _ _
      simp [render, parseVal, skipWs, isWs]
  | .bool false, fuel + 1, rest => by
      intro _ _ _
      simp [render, parseVal, skipWs, isWs]
  | .num (.ofNat m), fuel + 1, rest => by
      intro _ _ hstop
      obtain ⟨hne, hdig, hval⟩ := natChars_spec m
      obtain ⟨d, ds, hcons, hd⟩ := natChars_head m
      obtain ⟨htake, hdrop⟩ :=
        takeWhile_all_append isDigitC (natChars m) rest hdig (stopper_head_not_digit hstop)
      have hshape : render (.num (.ofNat m)) ++ rest = d :: (ds ++ rest) := by
        simp [render, intChars, hcons]
      rw [hshape, parseVal_digits fuel hd]
      have hback : d :: (ds ++ rest) = natChars m ++ rest := by rw [hcons]; rfl
      rw [hback, htake, hdrop, hval]
      rfl
  | .num (.negSucc m), fuel + 1, rest => by
      intro _ _ hstop
      obtain ⟨hne, hdig, hval⟩ := natChars_spec (m + 1)
      obtain ⟨d, ds, hcons, hd⟩ := natChars_head (m + 1)
      obtain ⟨htake, hdrop⟩ :=
        takeWhile_all_append isDigitC (natChars (m + 1)) rest hdig
          (stopper_head_not_digit hstop)
      have hshape : render (.num (.negSucc m)) ++ rest = '-' :: d :: (ds ++ rest) := by
        simp [render, intChars, hcons]
      rw [hshape, parseVal_neg_digits fuel hd]
      have hback : d :: (ds ++ rest) = natChars (m + 1) ++ rest := by rw [hcons]; rfl
      rw [hback, htake, hdrop, hval]
      have : Int.negSucc m = -((m + 1 : Nat) : Int) := by
        rw [Int.negSucc_eq]
        push_cast
        ring
      rw [this]
  | .str s, fuel + 1, rest => by
      intro _ _ _
      have hshape : render (.str s) ++ rest =
          '"' :: (escapeString s.data ++ '"' :: rest) := by
        simp [render, renderString]
      rw [hshape, parseVal, skipWs_cons_not (by decide)]
      simp [parseStrAux_escape, string_mk_data]
  | .arr [], fuel + 1, rest => by
      intro _ _ _
      simp [render, renderElems, parseVal, skipWs, isWs]
  | .arr (e :: es), fuel + 1, rest => by
      intro hwf hsz hstop
      have hwf2 : wfL (e :: es) = true := by
        simp only [wfJ] at hwf
        exact hwf
      have hsz2 : esize (e :: es) ≤ fuel := by
        simp only [jsize] at hsz
        omega
      have hshape : render (.arr (e :: es)) ++ rest =
          '[' :: (renderElems (e :: es) ++ ']' :: rest) := by
        simp [render]
      rw [hshape, parseVal, skipWs_cons_not (by decide)]
      have hskip : skipWs (renderElems (e :: es) ++ ']' :: rest) =
          renderElems (e :: es) ++ ']' :: rest := by
        rw [renderElems, List.append_assoc]
        exact skipWs_render e _
      have hhd : ((renderElems (e :: es) ++ ']' :: rest).headD 'x' = ']') = False := by
        rw [renderElems, List.append_assoc]
        exact (headD_render e _).1
      simp only [hskip, hhd]
      simp only [List.cons_append, if_false]
      rw [parseElems_render (e :: es) fuel rest [] hwf2 hsz2 hstop (by simp)]
      simp
  | .obj [], fuel + 1, rest => by
      intro _ _ _
      simp [render, renderFields, parseVal, skipWs, isWs]
  | .obj (p :: fs), fuel + 1, rest => by
      intro hwf hsz hstop
      obtain ⟨k, v⟩ := p
      have hwf2 : wfF ((k, v) :: fs) = true := by
        simp only [wfJ, Bool.and_eq_true] at hwf
        exact hwf.2
      have hnd : nodupKeys ((k, v) :: fs) = true := by
        simp only [wfJ, Bool.and_eq_true] at hwf
        exact hwf.1
      have hsz2 : fsize ((k, v) :: fs) ≤ fuel := by
        simp only [jsize] at hsz
        omega
      have hshape : render (.obj ((k, v) :: fs)) ++ rest =
          '{' :: (renderFields ((k, v) :: fs) ++ '}' :: rest) := by
        simp [render]
      rw [hshape, parseVal, skipWs_cons_not (by decide)]
      have hskip : skipWs (renderFields ((k, v) :: fs) ++ '}' :: rest) =
          renderFields ((k, v) :: fs) ++ '}' :: rest := by
        rw [renderFields, renderString]
        simp only [List.cons_append]
        exact skipWs_cons_not (by decide) _
      have hhd : ((renderFields ((k, v) :: fs) ++ '}' :: rest).headD 'x' = '}') = False := by
        rw [renderFields, renderString]
        simp only [List.cons_append]
        simp
      simp only [hskip, hhd]
      simp only [List.cons_append, if_false]
      rw [parseFields_render ((k, v) :: fs) fuel rest [] hwf2 hnd hsz2 hstop (by simp)
        (by intro p _; simp [dget?])]
      simp

/-- Round trip of a non-empty array body. -/
theorem parseElems_render : ∀ (es : List JVal) (fuel : Nat) (rest : List Char)
    (acc : List JVal),
    wfL es = true → esize es ≤ fuel → stopper rest → es ≠ [] →
    parseElems fuel (renderElems es ++ ']' :: rest) acc = some (.arr (acc ++ es), rest)
  | [], _, _, _ => by
      intro _ _ _ h
      exact absurd rfl h
  | e :: es, 0, rest, acc => by
      intro _ hsz _ _
      have h1 := jsize_pos e
      have h2 := esize_pos es
      simp only [esize] at hsz
      omega
  | e :: es, fuel + 1, rest, acc => by
      intro hwf hsz hstop _
      have hwfe : wfJ e = true ∧ wfL es = true := by
        simp only [wfL, Bool.and_eq_true] at hwf
        exact hwf
      have h1 := jsize_pos e
      have h2 := esize_pos es
      have hsze : jsize e ≤ fuel ∧ esize es ≤ fuel := by
        simp only [esize] at hsz
        constructor <;> omega
      have hshape : renderElems (e :: es) ++ ']' :: rest =
          render e ++ (renderElemsTail es ++ ']' :: rest) := by
        rw [renderElems, List.append_assoc]
      have hstop1 : stopper (renderElemsTail es ++ ']' :: rest) := by
        cases es with
        | nil => exact Or.inr ⟨']', rest, by simp [renderElemsTail], Or.inr (Or.inl rfl)⟩
        | cons e2 es2 =>
            refine Or.inr ⟨',', ' ' :: (renderElems (e2 :: es2) ++ ']' :: rest), ?_,
              Or.inl rfl⟩
            rw [renderElemsTail, renderElems]
            simp [List.append_assoc]
      rw [parseElems, hshape, parseVal_render e fuel _ hwfe.1 hsze.1 hstop1]
      cases es with
      | nil =>
          simp only [renderElemsTail, List.nil_append]
          simp [@skipWs_cons_not ']' (by decide)]
      | cons e2 es2 =>
          have hshape2 : renderElemsTail (e2 :: es2) ++ ']' :: rest =
              ',' :: ' ' :: (renderElems (e2 :: es2) ++ ']' :: rest) := by
            rw [renderElemsTail, renderElems]
            simp [List.append_assoc]
          rw [hshape2]
          simp only [@skipWs_cons_not ',' (by decide), List.headD_cons, List.tail_cons]
          rw [parseElems_ws_cons fuel (by decide)]
          rw [parseElems_render (e2 :: es2) fuel rest (acc ++ [e]) hwfe.2 hsze.2 hstop
            (by simp)]
          simp

/-- Round trip of a non-empty object body, collapsing nothing because the
keys are pairwise distinct and fresh for the accumulator. -/
theorem parseFields_render : ∀ (fs : List (String × JVal)) (fuel : Nat)
    (rest : List Char) (acc : List (String × JVal)),
    wfF fs = true → nodupKeys fs = true → fsize fs ≤ fuel → stopper rest → fs ≠ [] →
    (∀ p ∈ fs, dget? acc p.1 = none) →
    parseFields fuel (renderFields fs ++ '}' :: rest) acc = some (.obj (acc ++ fs), rest)
  | [], _, _, _ => by
      intro _ _ _ _ h _
      exact absurd rfl h
  | (k, v) :: fs, 0, rest, acc => by
      intro _ _ hsz _ _ _
      have h1 := jsize_pos v
      have h2 := fsize_pos fs
      simp only [fsize] at hsz
      omega
  | (k, v) :: fs, fuel + 1, rest, acc => by
      intro hwf hnd hsz hstop _ hfresh
      have hwfv : wfJ v = true ∧ wfF fs = true := by
        simp only [wfF, Bool.and_eq_true] at hwf
        exact hwf
      have hndk : dget? fs k = none ∧ nodupKeys fs = true := by
        simp only [nodupKeys, Bool.and_eq_true, Option.isNone_iff_eq_none] at hnd
        exact hnd
      have h1 := jsize_pos v
      have h2 := fsize_pos fs
      have hszv : jsize v ≤ fuel ∧ fsize fs ≤ fuel := by
        simp only [fsize] at hsz
        constructor <;> omega
      have hka : dget? acc k = none := hfresh (k, v) (by simp)
      have hshape : renderFields ((k, v) :: fs) ++ '}' :: rest =
          '"' :: (escapeString k.data ++ '"' ::
            (':' :: ' ' :: (render v ++ (renderFieldsTail fs ++ '}' :: rest)))) := by
        rw [renderFields, renderString]
        simp [List.append_assoc]
      have hstop1 : stopper (renderFieldsTail fs ++ '}' :: rest) := by
        cases fs with
        | nil => exact Or.inr ⟨'}', rest, by simp [renderFieldsTail], Or.inr (Or.inr rfl)⟩
        | cons p2 fs2 =>
            obtain ⟨k2, v2⟩ := p2
            refine Or.inr ⟨',', ' ' :: (renderFields ((k2, v2) :: fs2) ++ '}' :: rest),
              ?_, Or.inl rfl⟩
            rw [renderFieldsTail, renderFields, renderString]
            simp [List.append_assoc]
      rw [parseFields, hshape]
      simp only [@skipWs_cons_not '"' (by decide)]
      simp only [parseStrAux_escape k.data [] _, List.nil_append, string_mk_data]
      simp only [@skipWs_cons_not ':' (by decide), List.headD_cons, List.tail_cons]
      rw [parseVal_ws_cons fuel (by decide)]
      rw [parseVal_render v fuel _ hwfv.1 hszv.1 hstop1]
      cases fs with
      | nil =>
          simp only [renderFieldsTail, List.nil_append]
          simp [@skipWs_cons_not '}' (by decide), dset_append_fresh acc k v hka]
      | cons p2 fs2 =>
          obtain ⟨k2, v2⟩ := p2
          have hfresh2 : ∀ p ∈ (k2, v2) :: fs2, dget? (dset acc k v) p.1 = none := by
            intro p hp
            rw [dset_append_fresh acc k v hka, dget?_append]
            rw [hfresh p (by simp [hp])]
            have hpk : p.1 ≠ k := (dget?_eq_none_iff _ k).mp hndk.1 p hp
            simp [dget?, Ne.symm hpk]
          have hshape2 : renderFieldsTail ((k2, v2) :: fs2) ++ '}' :: rest =
              ',' :: ' ' :: (renderFields ((k2, v2) :: fs2) ++ '}' :: rest) := by
            rw [renderFieldsTail, renderFields, renderString]
            simp [List.append_assoc]
          rw [hshape2]
          simp only [@skipWs_cons_not ',' (by decide), List.headD_cons, List.tail_cons]
          rw [parseFields_ws_cons fuel (by decide)]
          rw [parseFields_render ((k2, v2) :: fs2) fuel rest (dset acc k v) hwfv.2
            hndk.2 hszv.2 hstop (by simp) hfresh2]
          rw [dset_append_fresh acc k v hka]
          simp

end

mutual

theorem jsize_le_renderLen : ∀ v : JVal, jsize v ≤ (render v).length
  | .null => by simp [jsize, render]
  | .bool b => by cases b <;> simp [jsize, render]
  | .num n => by
      cases n with
      | ofNat m =>
          obtain ⟨hne, _, _⟩ := natChars_spec m
          have : 0 < (natChars m).length := List.length_pos.mpr hne
          simp only [jsize, render, intChars]
          omega
      | negSucc m => simp [jsize, render, intChars]
  | .str s => by simp [jsize, render, renderString]
  | .arr es => by
      have h := esize_le_elems es
      simp only [jsize, render, List.length_cons, List.length_append,
        List.length_singleton]
      omega
  | .obj fs => by
      have h := fsize_le_fields fs
      simp only [jsize, render, List.length_cons, List.length_append,
        List.length_singleton]
      omega

theorem esize_le_elems : ∀ es : List JVal, esize es ≤ (renderElems es).length + 1
  | [] => by simp [esize, renderElems]
  | e :: es => by
      have h1 := jsize_le_renderLen e
      have h2 := esize_le_tail es
      simp only [esize, renderElems, List.length_append]
      omega

theorem esize_le_tail : ∀ es : List JVal, esize es ≤ (renderElemsTail es).length + 1
  | [] => by simp [esize, renderElemsTail]
  | e :: es => by
      have h1 := jsize_le_renderLen e
      have h2 := esize_le_tail es
      simp only [esize, renderElemsTail, List.length_cons, List.length_append]
      omega

theorem fsize_le_fields : ∀ fs : List (String × JVal),
    fsize fs ≤ (renderFields fs).length + 1
  | [] => by simp [fsize, renderFields]
  | (k, v) :: fs => by
      have h1 := jsize_le_renderLen v
      have h2 := fsize_le_ftail fs
      simp only [fsize, renderFields, List.length_append, List.length_cons]
      omega

theorem fsize_le_ftail : ∀ fs : List (String × JVal),
    fsize fs ≤ (renderFieldsTail fs).length + 1
  | [] => by simp [fsize, renderFieldsTail]
  | (k, v) :: fs => by
      have h1 := jsize_le_renderLen v
      have h2 := fsize_le_ftail fs
      simp only [fsize, renderFieldsTail, List.length_append, List.length_cons]
      omega

end

/-- Whole-document round trip of the `json` model: `json.load` parses back
exactly what `json.dumps` serialized, for every well-formed value. -/
theorem parseDoc_render (v : JVal) (h : wfJ v = true) : parseDoc (render v) = some v := by
  unfold parseDoc
  have hfuel : jsize v ≤ (render v).length + 1 :=
    le_trans (jsize_le_renderLen v) (Nat.le_succ _)
  have hp := parseVal_render v ((render v).length + 1) [] h hfuel (Or.inl rfl)
  rw [List.append_nil] at hp
  rw [hp]
  simp [skipWs]

theorem render_ne_nil (v : JVal) : render v ≠ [] := by
  obtain ⟨c, cs, hcons, _, _, _⟩ := render_head v
  rw [hcons]
  simp

/-- Effect of a permitted `JSONStorage.write` in a non-append mode: the file
holds exactly the new serialization (overwrite from the start, then truncate
at the end of the written data). -/
theorem write_spec_nonappend (f : FileH) (data : JVal)
    (hw : canWriteMode f.mode = true) (ha : appendMode f.mode = false) :
    JSONStorage.write f data =
      (.ok (), ⟨f.mode, render data, (render data).length⟩,
        [.seekStart, .writeChars (render data), .flush, .fsync, .truncate]) := by
  unfold JSONStorage.write
  rw [hw]
  simp only [Bool.true_eq_false, if_false]
  unfold FileH.seekStart FileH.writeChars FileH.truncHere
  simp only [ha, Bool.false_eq_true, if_false]
  simp [List.take_left']

/-- Effect of a permitted `JSONStorage.write` in an append mode: the new
serialization lands at the end of the existing content and the truncation is
a no-op. -/
theorem write_spec_append (f : FileH) (data : JVal)
    (hw : canWriteMode f.mode = true) (ha : appendMode f.mode = true) :
    JSONStorage.write f data =
      (.ok (), ⟨f.mode, f.content ++ render data, (f.content ++ render data).length⟩,
        [.seekStart, .writeChars (render data), .flush, .fsync, .truncate]) := by
  unfold JSONStorage.write
  rw [hw]
  simp only [Bool.true_eq_false, if_false]
  unfold FileH.seekStart FileH.writeChars FileH.truncHere
  simp [ha, List.take_length]

/-- A denied `JSONStorage.write` raises before performing any file
operation and leaves the handle untouched. -/
theorem write_spec_denied (f : FileH) (data : JVal)
    (hw : canWriteMode f.mode = false) :
    JSONStorage.write f data = (.error .ioCannotWrite, f, []) := by
  unfold JSONStorage.write
  rw [hw]
  rfl

/-- `JSONStorage.read` on a readable handle whose content is a well-formed
serialization returns the parsed value and leaves the position at the end. -/
theorem read_spec_render (f : FileH) (v : JVal) (hwf : wfJ v = true)
    (hc : f.content = render v) (hr : readableMode f.mode = true) :
    JSONStorage.read f = (.ok (some v), f.seekEnd) := by
  unfold JSONStorage.read
  rw [hc]
  rw [if_neg (by simpa using render_ne_nil v)]
  rw [hr]
  simp [parseDoc_render v hwf]

theorem pyTruthy_obj (fs : List (String × JVal)) (h : fs ≠ []) :
    pyTruthy (.obj fs) = true := by
  cases fs with
  | nil => exact absurd rfl h
  | cons p fs => simp [pyTruthy]

theorem dget?_some_ne_nil {α : Type} {fs : List (String × α)} {b : String} {vb : α}
    (h : dget? fs b = some vb) : fs ≠ [] := by
  cases fs with
  | nil => simp [dget?] at h
  | cons p fs => simp

theorem dset_ne_nil {α : Type} (fs : List (String × α)) (k : String) (v : α) :
    dset fs k v ≠ [] := by
  cases fs with
  | nil => simp [dset]
  | cons p fs =>
      obtain ⟨k', v'⟩ := p
      by_cases h : k' = k <;> simp [dset, h]

theorem nodupKeys_dset {α : Type} (d : List (String × α)) (k : String) (v : α)
    (h : nodupKeys d = true) : nodupKeys (dset d k v) = true := by
  induction d with
  | nil => simp [dset, nodupKeys, dget?]
  | cons hd tl ih =>
      obtain ⟨k', v'⟩ := hd
      simp only [nodupKeys, Bool.and_eq_true, Option.isNone_iff_eq_none] at h
      by_cases hk : k' = k
      · simp only [dset, if_pos hk, nodupKeys, Bool.and_eq_true,
          Option.isNone_iff_eq_none]
        exact ⟨h.1, h.2⟩
      · simp only [dset, if_neg hk, nodupKeys, Bool.and_eq_true,
          Option.isNone_iff_eq_none]
        refine ⟨?_, ih h.2⟩
        rw [dget?_dset_ne tl k k' v (fun he => hk he.symm)]
        exact h.1

theorem wfF_dset (fs : List (String × JVal)) (k : String) (v : JVal)
    (hf : wfF fs = true) (hv : wfJ v = true) : wfF (dset fs k v) = true := by
  induction fs with
  | nil => simp [dset, wfF, hv]
  | cons hd tl ih =>
      obtain ⟨k', v'⟩ := hd
      simp only [wfF, Bool.and_eq_true] at hf
      by_cases hk : k' = k
      · simp only [dset, if_pos hk, wfF, Bool.and_eq_true]
        exact ⟨hv, hf.2⟩
      · simp only [dset, if_neg hk, wfF, Bool.and_eq_true]
        exact ⟨hf.1, ih hf.2⟩

/-- Well-formedness of an object snapshot survives a single-key update. -/
theorem wfJ_obj_dset (fields : List (String × JVal)) (k : String) (v : JVal)
    (h : wfJ (.obj fields) = true) (hv : wfJ v = true) :
    wfJ (.obj (dset fields k v)) = true := by
  simp only [wfJ, Bool.and_eq_true] at h ⊢
  exact ⟨nodupKeys_dset fields k v h.1, wfF_dset fields k v h.2 hv⟩

/-- `ItemStorage.__getitem__` looks only at the cache, so equal caches give
equal reads. -/
theorem itemGetItem_cache_eq {σ1 σ2 : Type} (st1 : ItemState σ1) (st2 : ItemState σ2)
    (h : st1.cache = st2.cache) (k : String) :
    ItemStorage.getItem st1 k = ItemStorage.getItem st2 k := by
  unfold ItemStorage.getItem
  rw [h]

/-- C9: `read()` on a freshly created empty backend returns absent and never
raises — a file leaf on a zero-length file (in any access mode), a new memory
leaf, and a caching wrapper constructed over a backend whose read returned
absent all report absent from `read`. -/
theorem C9_empty_start (f : FileH) (hf : f.content = []) :
    (JSONStorage.read f).1 = .ok none ∧
      (MemoryStorage.read none).1 = .ok none ∧
      (∀ (σ : Type) (ops : StorageOps σ) (s s2 : σ), ops.read s = (.ok none, s2) →
        ItemStorage.init ops s = .ok ⟨s2, none⟩ ∧
          (ItemStorage.read (⟨s2, none⟩ : ItemState σ)).1 = .ok none) := by
  refine ⟨?_, rfl, ?_⟩
  · unfold JSONStorage.read
    rw [hf]
    rfl
  · intro σ ops s s2 h
    unfold ItemStorage.init
    rw [h]
    exact ⟨rfl, rfl⟩

theorem C9_empty_start_witness :
    (JSONStorage.read (openFile [] "r+")).1 = .ok none ∧
      ItemStorage.init memOps none = .ok ⟨none, none⟩ :=
  ⟨(C9_empty_start (openFile [] "r+") rfl).1,
    ((C9_empty_start (openFile [] "r+") rfl).2.2 (Option JVal) memOps none none rfl).1⟩

/-- C10: `set` on a file leaf whose backing file is empty always fails with a
`TypeError` (`data[key] = value` on the `None` returned by `read`) before any
write is attempted — the emitted file-operation trace is empty — leaving the
file content unchanged. -/
theorem C10_set_on_empty_file (f : FileH) (hf : f.content = []) (k : String) (v : JVal) :
    (JSONStorage.setItem f k v).1 = .error .typeError ∧
      (JSONStorage.setItem f k v).2.1.content = [] ∧
      (JSONStorage.setItem f k v).2.2 = [] := by
  unfold JSONStorage.setItem JSONStorage.read
  rw [hf]
  simp [FileH.seekEnd, hf]

theorem C10_set_on_empty_file_witness :
    (JSONStorage.setItem (openFile [] "r+") "k" (.obj [])).1 = .error .typeError ∧
      (JSONStorage.setItem (openFile [] "r+") "k" (.obj [])).2.1.content = [] :=
  ⟨(C10_set_on_empty_file (openFile [] "r+") rfl "k" (.obj [])).1,
    (C10_set_on_empty_file (openFile [] "r+") rfl "k" (.obj [])).2.1⟩

/-- C2: `ItemStorage.write` propagates the wrapped backend's result
unchanged; the cache is rebound to the new snapshot exactly when the backend
write succeeded and keeps its previous value when the backend write raised. -/
theorem C2_write_through (σ : Type) (ops : StorageOps σ) (st : ItemState σ)
    (data : JVal) :
    ItemStorage.write ops st data =
      ((ops.write st.inner data).1,
        ⟨(ops.write st.inner data).2,
          match (ops.write st.inner data).1 with
          | .ok _ => some data
          | .error _ => st.cache⟩) := by
  unfold ItemStorage.write
  cases hx : ops.write st.inner data with
  | mk r s2 => cases r <;> simp [hx]

/-- C1 counterexample: on a wrapper whose cache is absent (as after
construction over an empty backend), `set` fails with an `AttributeError`
from `None.get` — not the backend's error: the backend write, which would
raise `custom 0`, is never even invoked (its call counter stays 0). -/
theorem C1_set_rollback_cex :
    ItemStorage.setItem countFailOps ⟨0, none⟩ "k" (.obj []) =
        (.error .attributeError, ⟨0, none⟩) ∧
      (countFailOps.write 0 (.obj [])).1 = .error (.custom 0) ∧
      Err.attributeError ≠ Err.custom 0 :=
  ⟨rfl, rfl, by decide⟩

/-- C1 (amended): against a backend whose write raises, `set` fails for every
cache state and leaves the cache exactly equal to its pre-call state, so every
subsequent `get` observes exactly what it observed before the call; when the
cache holds a dict the re-raised error is the backend's original error, while
an absent or non-dict cache fails up front with an `AttributeError`. -/
theorem C1_set_rollback (σ : Type) (ops : StorageOps σ) (st : ItemState σ)
    (key : String) (value : JVal)
    (hfail : ∀ d : JVal, ∃ e : Err, (ops.write st.inner d).1 = .error e) :
    (∃ e : Err, (ItemStorage.setItem ops st key value).1 = .error e) ∧
      (ItemStorage.setItem ops st key value).2.cache = st.cache ∧
      (∀ k2 : String, ItemStorage.getItem (ItemStorage.setItem ops st key value).2 k2 =
        ItemStorage.getItem st k2) ∧
      (∀ fields : List (String × JVal), st.cache = some (.obj fields) →
        (ItemStorage.setItem ops st key value).1 =
          (ops.write st.inner (.obj (dset fields key value))).1) := by
  have hmain : (∃ e : Err, (ItemStorage.setItem ops st key value).1 = .error e) ∧
      (ItemStorage.setItem ops st key value).2.cache = st.cache ∧
      (∀ fields : List (String × JVal), st.cache = some (.obj fields) →
        (ItemStorage.setItem ops st key value).1 =
          (ops.write st.inner (.obj (dset fields key value))).1) := by
    unfold ItemStorage.setItem
    match hc : st.cache with
    | none => exact ⟨⟨.attributeError, rfl⟩, by simp [hc], by intro f h; simp at h⟩
    | some (.null) => exact ⟨⟨.attributeError, rfl⟩, by simp [hc], by intro f h; simp at h⟩
    | some (.bool b) => exact ⟨⟨.attributeError, rfl⟩, by simp [hc], by intro f h; simp at h⟩
    | some (.num n) => exact ⟨⟨.attributeError, rfl⟩, by simp [hc], by intro f h; simp at h⟩
    | some (.str s) => exact ⟨⟨.attributeError, rfl⟩, by simp [hc], by intro f h; simp at h⟩
    | some (.arr es) => exact ⟨⟨.attributeError, rfl⟩, by simp [hc], by intro f h; simp at h⟩
    | some (.obj fields) =>
        obtain ⟨e, he⟩ := hfail (.obj (dset fields key value))
        cases hw : ops.write st.inner (.obj (dset fields key value)) with
        | mk r s2 =>
            rw [hw] at he
            simp only at he
            subst he
            cases holdv : dget? fields key with
            | none =>
                refine ⟨⟨e, by simp [holdv, hw]⟩, ?_, ?_⟩
                · simp [holdv, hw, dpop_dset_fresh fields key value holdv]
                · intro f h
                  injection h with h2
                  injection h2 with h3
                  subst h3
                  simp [holdv, hw]
            | some w =>
                refine ⟨⟨e, by simp [holdv, hw]⟩, ?_, ?_⟩
                · simp [holdv, hw, dset_dset_restore fields key value w holdv]
                · intro f h
                  injection h with h2
                  injection h2 with h3
                  subst h3
                  simp [holdv, hw]
  refine ⟨hmain.1, hmain.2.1, ?_, hmain.2.2⟩
  intro k2
  exact itemGetItem_cache_eq _ _ hmain.2.1 k2

theorem C1_set_rollback_witness :
    (ItemStorage.setItem failOps ⟨(), some (.obj [("a", .num 1)])⟩ "b" (.num 2)).2.cache =
      some (.obj [("a", .num 1)]) :=
  (C1_set_rollback Unit failOps ⟨(), some (.obj [("a", .num 1)])⟩ "b" (.num 2)
    (fun _ => ⟨.custom 0, rfl⟩)).2.1

/-- C3 counterexample: in the write-capable append mode `'a'` on a file
holding `"00"`, `write({})` succeeds but every write appends, so re-reading
the raw file yields `"00{}"` — not the serialization of the written
snapshot. -/
theorem C3_write_permission_cex :
    canWriteMode "a" = true ∧
      (JSONStorage.write (openFile ['0', '0'] "a") (.obj [])).1 = .ok () ∧
      (JSONStorage.write (openFile ['0', '0'] "a") (.obj [])).2.1.content =
        ['0', '0', '{', '}'] ∧
      render (.obj []) = ['{', '}'] ∧
      (['0', '0', '{', '}'] : List Char) ≠ ['{', '}'] :=
  ⟨rfl, rfl, rfl, rfl, by decide⟩

/-- C3 (amended): with no write capability in the access mode, every `write`
raises the cannot-write error before any file operation (empty trace) and
leaves the handle, content included, untouched; in a write-capable
*non-append* mode, `write(S)` succeeds and the raw file content afterwards is
exactly the serialization of S (so re-reading it yields S, by
`parseDoc_render`). -/
theorem C3_write_permission (mode : String) (initial : List Char) (data : JVal) :
    (canWriteMode mode = false →
      JSONStorage.write (openFile initial mode) data =
        (.error .ioCannotWrite, openFile initial mode, [])) ∧
      (canWriteMode mode = true → appendMode mode = false →
        (JSONStorage.write (openFile initial mode) data).1 = .ok () ∧
        (JSONStorage.write (openFile initial mode) data).2.1.content = render data) := by
  constructor
  · intro h
    exact write_spec_denied _ _ h
  · intro hw ha
    rw [write_spec_nonappend (openFile initial mode) data hw ha]
    exact ⟨rfl, rfl⟩

theorem C3_write_permission_witness :
    JSONStorage.write (openFile ['0'] "r") (.obj []) =
        (.error .ioCannotWrite, openFile ['0'] "r", []) ∧
      (JSONStorage.write (openFile ['0'] "r+") (.obj [])).2.1.content =
        render (.obj []) :=
  ⟨(C3_write_permission "r" ['0'] (.obj [])).1 rfl,
    ((C3_write_permission "r+" ['0'] (.obj [])).2 rfl rfl).2⟩

/-- C4 counterexample: the JSON leaf opened in the write-capable mode `'w'`
accepts `write({})`, but a subsequent `read()` on the same instance raises
(the handle is not readable), so write-then-read does not yield the written
snapshot for every leaf instance. -/
theorem C4_roundtrip_cex :
    (JSONStorage.write (openFile [] "w") (.obj [])).1 = .ok () ∧
      (JSONStorage.read (JSONStorage.write (openFile [] "w") (.obj [])).2.1).1 =
        .error .unsupportedOperation :=
  ⟨rfl, rfl⟩

/-- C4 (amended): for any valid snapshot, write-then-read on the same
instance yields exactly the written snapshot — unconditionally on the memory
leaf, and on the JSON file leaf whenever its mode is write-capable, readable
and non-append (the default `'r+'` in particular). -/
theorem C4_roundtrip (mode : String) (initial : List Char) (v : JVal)
    (_hsnap : isSnapshot v = true) (hwf : wfJ v = true)
    (hw : canWriteMode mode = true) (hr : readableMode mode = true)
    (ha : appendMode mode = false) (s : Option JVal) :
    (JSONStorage.read (JSONStorage.write (openFile initial mode) v).2.1).1 =
        .ok (some v) ∧
      (MemoryStorage.read (MemoryStorage.write s v).2).1 = .ok (some v) := by
  constructor
  · rw [write_spec_nonappend (openFile initial mode) v hw ha]
    rw [read_spec_render ⟨(openFile initial mode).mode, render v, (render v).length⟩
      v hwf rfl hr]
  · rfl

theorem C4_roundtrip_witness :
    (JSONStorage.read
        (JSONStorage.write (openFile [] "r+") (.obj [("k", .obj [])])).2.1).1 =
      .ok (some (.obj [("k", .obj [])])) :=
  (C4_roundtrip "r+" [] (.obj [("k", .obj [])]) rfl rfl rfl rfl rfl none).1

/-- C5 counterexample: a permitted write in append mode `'a'` emits the same
operation sequence, but the file is not truncated to the exact length of the
new content — the new serialization has length 2 while the file ends up with
length 4. -/
theorem C5_write_order_cex :
    canWriteMode "a" = true ∧
      (JSONStorage.write (openFile ['0', '0'] "a") (.obj [])).2.2 =
        [.seekStart, .writeChars ['{', '}'], .flush, .fsync, .truncate] ∧
      (JSONStorage.write (openFile ['0', '0'] "a") (.obj [])).2.1.content.length = 4 ∧
      (render (.obj [])).length = 2 ∧ (4 : Nat) ≠ 2 :=
  ⟨rfl, rfl, rfl, rfl, by decide⟩

/-- C5 (amended): every permitted write invokes, in this order, seek to the
file start, write of the full serialized snapshot, flush, fsync, and only
then truncate — so truncation never precedes the sync of the new content;
in non-append modes the truncation leaves the file holding exactly the new
serialization. -/
theorem C5_write_order (f : FileH) (data : JVal) (hw : canWriteMode f.mode = true) :
    (JSONStorage.write f data).2.2 =
        [.seekStart, .writeChars (render data), .flush, .fsync, .truncate] ∧
      (appendMode f.mode = false →
        (JSONStorage.write f data).2.1.content = render data) := by
  constructor
  · unfold JSONStorage.write
    rw [hw]
    rfl
  · intro ha
    rw [write_spec_nonappend f data hw ha]

theorem C5_write_order_witness :
    (JSONStorage.write (openFile [] "r+") (.obj [])).2.2 =
        [.seekStart, .writeChars (render (.obj [])), .flush, .fsync, .truncate] ∧
      (JSONStorage.write (openFile [] "r+") (.obj [])).2.1.content =
        render (.obj []) :=
  ⟨(C5_write_order (openFile [] "r+") (.obj []) rfl).1,
    (C5_write_order (openFile [] "r+") (.obj []) rfl).2 rfl⟩

/-- C6 counterexample: the wrapper's cache is the very dict object the
backend holds (no copy at construction), so an in-place single-key mutation
performed directly on the wrapped `MemoryStorage` *is* reflected by the
wrapper's `read()`. -/
theorem C6_cache_alias_cex :
    MI.wrapperRead (MI.init [.obj [("k", .obj [("v", .num 1)])]] (some 0)) =
        some (.obj [("k", .obj [("v", .num 1)])]) ∧
      (MI.memSetItem (MI.init [.obj [("k", .obj [("v", .num 1)])]] (some 0))
          "k2" (.obj [])).1 = .ok () ∧
      MI.wrapperRead
        (MI.memSetItem (MI.init [.obj [("k", .obj [("v", .num 1)])]] (some 0))
            "k2" (.obj [])).2 =
        some (.obj [("k", .obj [("v", .num 1)]), ("k2", .obj [])]) ∧
      some (JVal.obj [("k", .obj [("v", .num 1)]), ("k2", .obj [])]) ≠
        some (JVal.obj [("k", .obj [("v", .num 1)])]) := by
  refine ⟨rfl, rfl, rfl, ?_⟩
  simp

/-- C6 (amended): the wrapper retains the reference obtained from the
backend's `read` at construction and never re-reads, so its `read()` keeps
returning the construction-time snapshot even after the backend's `write`
rebinds the backend to a fresh snapshot object (in-place mutation, by
contrast, is visible — see the counterexample). -/
theorem C6_cache_rebind_independent (heap : List JVal) (a : Nat)
    (hlt : a < heap.length) (v : JVal) :
    MI.wrapperRead (MI.init heap (some a)) = some (heapAt heap a) ∧
      MI.wrapperRead (MI.memWrite (MI.init heap (some a)) v) =
        some (heapAt heap a) := by
  refine ⟨rfl, ?_⟩
  unfold MI.wrapperRead MI.memWrite MI.init heapAt
  simp [List.getD, List.getElem?_append, hlt]

theorem C6_cache_rebind_independent_witness :
    MI.wrapperRead (MI.memWrite (MI.init [JVal.null] (some 0)) (.num 1)) =
      some JVal.null :=
  (C6_cache_rebind_independent [JVal.null] 0 (by decide) (.num 1)).2

/-- C8 counterexample: a file leaf holding the snapshot `{}` (a non-empty
store: the file is non-empty and `read` returns a snapshot) nevertheless
answers `get` with absent for a missing key instead of failing, because
`data[key] if data else None` treats the empty dict as falsy. -/
theorem C8_get_missing_cex :
    (openFile ['{', '}'] "r+").content = ['{', '}'] ∧
      (JSONStorage.read (openFile ['{', '}'] "r+")).1 = .ok (some (.obj [])) ∧
      (JSONStorage.getItem (openFile ['{', '}'] "r+") "k").1 = .ok none :=
  ⟨rfl, rfl, rfl⟩

/-- C8 (amended): `get` returns absent when the store is empty (no snapshot)
and also when the snapshot is the empty mapping (Python falsiness); it raises
`KeyError` exactly when the snapshot has at least one key and the requested
key is missing — on the file leaf and the caching wrapper alike. -/
theorem C8_get_policy (k : String) (fields : List (String × JVal))
    (hwf : wfJ (.obj fields) = true) (σ : Type) (st : ItemState σ) :
    (∀ f : FileH, f.content = [] → (JSONStorage.getItem f k).1 = .ok none) ∧
      (∀ f : FileH, f.content = render (.obj fields) → readableMode f.mode = true →
        fields ≠ [] → dget? fields k = none →
        (JSONStorage.getItem f k).1 = .error (.keyError k)) ∧
      (st.cache = none → ItemStorage.getItem st k = .ok none) ∧
      (∀ fs2 : List (String × JVal), st.cache = some (.obj fs2) → fs2 ≠ [] →
        dget? fs2 k = none → ItemStorage.getItem st k = .error (.keyError k)) ∧
      (st.cache = some (.obj []) → ItemStorage.getItem st k = .ok none) := by
  refine ⟨?_, ?_, ?_, ?_, ?_⟩
  · intro f hf
    unfold JSONStorage.getItem JSONStorage.read
    rw [hf]
    rfl
  · intro f hf hr hne hmiss
    unfold JSONStorage.getItem
    rw [read_spec_render f (.obj fields) hwf hf hr]
    simp [pyTruthy_obj fields hne, JVal.getItem, hmiss]
  · intro hc
    simp [ItemStorage.getItem, hc]
  · intro fs2 hc hne hmiss
    simp [ItemStorage.getItem, hc, pyTruthy_obj fs2 hne, JVal.getItem, hmiss]
  · intro hc
    simp [ItemStorage.getItem, hc, pyTruthy]

theorem C8_get_policy_witness :
    (JSONStorage.getItem (openFile [] "r") "b").1 = .ok none ∧
      (JSONStorage.getItem (openFile (render (.obj [("a", .obj [])])) "r+") "b").1 =
        .error (.keyError "b") ∧
      ItemStorage.getItem (⟨(), some (.obj [("a", .obj [])])⟩ : ItemState Unit) "b" =
        .error (.keyError "b") := by
  refine ⟨?_, ?_, ?_⟩
  · exact (C8_get_policy "b" [] rfl Unit ⟨(), none⟩).1 (openFile [] "r") rfl
  · exact (C8_get_policy "b" [("a", .obj [])] rfl Unit ⟨(), none⟩).2.1
      (openFile (render (.obj [("a", .obj [])])) "r+") rfl rfl (by simp) rfl
  · exact (C8_get_policy "b" [] rfl Unit
      ⟨(), some (.obj [("a", .obj [])])⟩).2.2.2.1 [("a", .obj [])] rfl (by simp) rfl

/-- C7 counterexample: a JSON file leaf in the readable, write-capable append
mode `'a+'` holds the two-key snapshot; `set("a", ...)` *succeeds* (the
rewrite is appended after the old content), but a subsequent `get("b")` on
the same instance raises a decode error instead of returning b's old item —
so "every backend" is too strong. -/
theorem C7_isolation_cex :
    (JSONStorage.setItem
        (openFile (render (.obj [("a", .obj []), ("b", .obj [])])) "a+")
        "a" (.obj [("x", .num 99)])).1 = .ok () ∧
      (JSONStorage.getItem
          (JSONStorage.setItem
            (openFile (render (.obj [("a", .obj []), ("b", .obj [])])) "a+")
            "a" (.obj [("x", .num 99)])).2.1 "b").1 = .error .jsonDecode :=
  ⟨rfl, rfl⟩

/-- C7 (amended): a successful `set(a, item)` changes only key `a`.  On a
JSON file leaf currently holding the snapshot in a readable, write-capable,
non-append mode, the persisted file becomes exactly the snapshot with `a`
updated and `get(b)` still returns b's old item; likewise on the memory leaf
and on the caching wrapper whose backend write succeeds; and every key other
than `a` is unchanged in the updated snapshot. -/
theorem C7_single_key_isolation (f : FileH)
    (fields : List (String × JVal)) (hwf : wfJ (.obj fields) = true)
    (hfc : f.content = render (.obj fields))
    (hw : canWriteMode f.mode = true) (hr : readableMode f.mode = true)
    (ha : appendMode f.mode = false)
    (a b : String) (hab : a ≠ b) (item : JVal) (hitem : wfJ item = true)
    (vb : JVal) (hb : dget? fields b = some vb)
    (σ : Type) (ops : StorageOps σ) (st : ItemState σ)
    (hcache : st.cache = some (.obj fields)) (s2 : σ)
    (hok : ops.write st.inner (.obj (dset fields a item)) = (.ok (), s2)) :
    ((JSONStorage.setItem f a item).1 = .ok () ∧
      (JSONStorage.setItem f a item).2.1.content =
        render (.obj (dset fields a item)) ∧
      (JSONStorage.getItem (JSONStorage.setItem f a item).2.1 b).1 = .ok (some vb)) ∧
    (MemoryStorage.setItem (some (.obj fields)) a item =
        (.ok (), some (.obj (dset fields a item))) ∧
      MemoryStorage.getItem (some (.obj (dset fields a item))) b = .ok vb) ∧
    (ItemStorage.setItem ops st a item =
        (.ok (), ⟨s2, some (.obj (dset fields a item))⟩) ∧
      ItemStorage.getItem (⟨s2, some (.obj (dset fields a item))⟩ : ItemState σ) b =
        .ok (some vb)) ∧
    (∀ k2 : String, k2 ≠ a → dget? (dset fields a item) k2 = dget? fields k2) := by
  have hbnew : dget? (dset fields a item) b = some vb := by
    rw [dget?_dset_ne fields a b item hab, hb]
  have hwfnew : wfJ (.obj (dset fields a item)) = true :=
    wfJ_obj_dset fields a item hwf hitem
  have hsetfile : JSONStorage.setItem f a item =
      JSONStorage.write f.seekEnd (.obj (dset fields a item)) := by
    unfold JSONStorage.setItem
    rw [read_spec_render f (.obj fields) hwf hfc hr]
    simp [JVal.setItem]
  refine ⟨?_, ?_, ?_, ?_⟩
  · rw [hsetfile, write_spec_nonappend f.seekEnd (.obj (dset fields a item)) hw ha]
    refine ⟨rfl, rfl, ?_⟩
    unfold JSONStorage.getItem
    rw [read_spec_render ⟨f.seekEnd.mode, render (.obj (dset fields a item)),
      (render (.obj (dset fields a item))).length⟩ (.obj (dset fields a item))
      hwfnew rfl hr]
    simp [pyTruthy_obj _ (dset_ne_nil fields a item), JVal.getItem, hbnew]
  · constructor
    · simp [MemoryStorage.setItem, JVal.setItem]
    · simp [MemoryStorage.getItem, JVal.getItem, hbnew]
  · constructor
    · unfold ItemStorage.setItem
      match hc : st.cache, hcache with
      | some (.obj fields), rfl => simp [hok]
    · simp [ItemStorage.getItem, pyTruthy_obj _ (dset_ne_nil fields a item),
        JVal.getItem, hbnew]
  · intro k2 hk2
    exact dget?_dset_ne fields a k2 item (fun h => hk2 h.symm)

theorem C7_single_key_isolation_witness :
    (JSONStorage.getItem
        (JSONStorage.setItem
          (openFile (render (.obj [("a", .obj []), ("b", .obj [("y", .num 2)])])) "r+")
          "a" (.obj [("x", .num 99)])).2.1 "b").1 = .ok (some (.obj [("y", .num 2)])) ∧
      ItemStorage.setItem memOps
          ⟨some (.obj [("a", .obj []), ("b", .obj [("y", .num 2)])]),
            some (.obj [("a", .obj []), ("b", .obj [("y", .num 2)])])⟩
          "a" (.obj [("x", .num 99)]) =
        (.ok (), ⟨some (.obj (dset [("a", .obj []), ("b", .obj [("y", .num 2)])] "a"
            (.obj [("x", .num 99)]))),
          some (.obj (dset [("a", .obj []), ("b", .obj [("y", .num 2)])] "a"
            (.obj [("x", .num 99)])))⟩) := by
  have h := C7_single_key_isolation
    (openFile (render (.obj [("a", .obj []), ("b", .obj [("y", .num 2)])])) "r+")
    [("a", .obj []), ("b", .obj [("y", .num 2)])] rfl rfl rfl rfl rfl
    "a" "b" (by decide) (.obj [("x", .num 99)]) rfl (.obj [("y", .num 2)]) rfl
    (Option JVal) memOps
    ⟨some (.obj [("a", .obj []), ("b", .obj [("y", .num 2)])]),
      some (.obj [("a", .obj []), ("b", .obj [("y", .num 2)])])⟩
    rfl
    (some (.obj (dset [("a", .obj []), ("b", .obj [("y", .num 2)])] "a"
      (.obj [("x", .num 99)])))) rfl
  exact ⟨h.1.2.2, h.2.2.1.1⟩

end NaiveDB
